import Mathlib

set_option maxHeartbeats 1000000

/-!
Verification of the statistics / technical-indicator engine of the
cotacoes_insight repository (src/mapreduce_utils.py, src/app.py).

Modelling conventions:
* pandas/numpy float values are modelled by `PyF`: a rational payload
  plus the IEEE special values `nan`, `inf`, `ninf` (we identify -0.0
  with 0).  Elementwise series operations become pointwise functions
  materialised over `List.range`.
* a DataFrame column that may be absent is an `Option`; a column entry
  that may be NaN/null is an `Option ℚ`.
* Python exceptions are `Except String`.
* `float(np.sqrt q)` style irrational scalars are kept symbolic via the
  `Val.sqrtQ` constructor (the value it denotes is `Real.sqrt q`).
-/

/-- Model of an IEEE double as used by numpy/pandas here: a rational
payload or one of the special values. -/
inductive PyF where
  | nan : PyF
  | inf : PyF
  | ninf : PyF
  | fin : ℚ → PyF
deriving DecidableEq

def PyF.isNan : PyF → Bool
  | .nan => true
  | _ => false

def PyF.neg : PyF → PyF
  | .nan => .nan
  | .inf => .ninf
  | .ninf => .inf
  | .fin q => .fin (-q)

def PyF.add : PyF → PyF → PyF
  | .nan, _ => .nan
  | _, .nan => .nan
  | .inf, .ninf => .nan
  | .ninf, .inf => .nan
  | .inf, _ => .inf
  | _, .inf => .inf
  | .ninf, _ => .ninf
  | _, .ninf => .ninf
  | .fin a, .fin b => .fin (a + b)

def PyF.sub (x y : PyF) : PyF := x.add y.neg

def PyF.mul : PyF → PyF → PyF
  | .nan, _ => .nan
  | _, .nan => .nan
  | .inf, .inf => .inf
  | .inf, .ninf => .ninf
  | .ninf, .inf => .ninf
  | .ninf, .ninf => .inf
  | .inf, .fin b => if 0 < b then .inf else if b < 0 then .ninf else .nan
  | .fin a, .inf => if 0 < a then .inf else if a < 0 then .ninf else .nan
  | .ninf, .fin b => if 0 < b then .ninf else if b < 0 then .inf else .nan
  | .fin a, .ninf => if 0 < a then .ninf else if a < 0 then .inf else .nan
  | .fin a, .fin b => .fin (a * b)

def PyF.div : PyF → PyF → PyF
  | .nan, _ => .nan
  | _, .nan => .nan
  | .fin a, .fin b =>
      if b = 0 then (if 0 < a then .inf else if a < 0 then .ninf else .nan)
      else .fin (a / b)
  | .fin _, .inf => .fin 0
  | .fin _, .ninf => .fin 0
  | .inf, .fin b => if 0 ≤ b then .inf else .ninf
  | .ninf, .fin b => if 0 ≤ b then .ninf else .inf
  | .inf, .inf => .nan
  | .inf, .ninf => .nan
  | .ninf, .inf => .nan
  | .ninf, .ninf => .nan

/-- `x > 0` as evaluated by pandas on a float (False on NaN). -/
def PyF.gt0 : PyF → Bool
  | .inf => true
  | .fin q => decide (0 < q)
  | _ => false

/-- `x < 0` as evaluated by pandas on a float (False on NaN). -/
def PyF.lt0 : PyF → Bool
  | .ninf => true
  | .fin q => decide (q < 0)
  | _ => false

/-- Binary minimum on non-NaN floats (NaN acts as the identity, matching
the NaN-skipping reductions `np.nanmin` / `Series.min`). -/
def PyF.min2 : PyF → PyF → PyF
  | .nan, y => y
  | x, .nan => x
  | .ninf, _ => .ninf
  | _, .ninf => .ninf
  | .inf, y => y
  | x, .inf => x
  | .fin a, .fin b => .fin (min a b)

/-- Binary maximum on non-NaN floats (NaN acts as the identity). -/
def PyF.max2 : PyF → PyF → PyF
  | .nan, y => y
  | x, .nan => x
  | .inf, _ => .inf
  | _, .inf => .inf
  | .ninf, y => y
  | x, .ninf => x
  | .fin a, .fin b => .fin (max a b)

/-- A scalar or series value stored in the result dictionary of
`map_reduce_stats`.  `sqrtQ q` stands for the float `sqrt q` (the code
stores `np.nanstd`/volatility results, which are square roots of the
rational variances we compute). -/
inductive Val where
  | num : PyF → Val
  | sqrtQ : ℚ → Val
  | series : List PyF → Val
deriving DecidableEq

/- ----------------------------------------------------------------
   src/mapreduce_utils.py
   ---------------------------------------------------------------- -/

/-- `chunkify(seq, n_chunks)` from src/mapreduce_utils.py for the
in-contract case of a positive `n_chunks`:
`k, m = divmod(len(seq), n_chunks)` and chunk `i` is the Python slice
`seq[i*k + min(i, m) : (i+1)*k + min(i+1, m)]`; empty chunks are
filtered out (`[c for c in chunks if c]`). -/
def chunkify {α : Type} (seq : List α) (n_chunks : ℕ) : List (List α) :=
  let k := seq.length / n_chunks
  let m := seq.length % n_chunks
  ((List.range n_chunks).map (fun i =>
      (seq.drop (i * k + min i m)).take ((i + 1) * k + min (i + 1) m - (i * k + min i m)))).filter
    (fun c => !c.isEmpty)

/-- Normalisation of one Python slice endpoint: a negative index counts
from the end, and endpoints are clamped to the list length. -/
def pyIndex (len : ℕ) (i : ℤ) : ℕ :=
  if i < 0 then ((len : ℤ) + i).toNat else min i.toNat len

/-- The Python slice `l[a:b]` for integer endpoints. -/
def pySlice {α : Type} (l : List α) (a b : ℤ) : List α :=
  (l.drop (pyIndex l.length a)).take (pyIndex l.length b - pyIndex l.length a)

/-- `chunkify(seq, n_chunks)` for an arbitrary integer `n_chunks`,
modelling Python semantics exactly: `divmod(len(seq), 0)` raises
`ZeroDivisionError` (`none`); otherwise `divmod` is floor
division/modulo (`Int.fdiv`/`Int.fmod`), `range(n)` is empty for
`n ≤ 0`, and slices follow Python slicing rules. -/
def chunkifyZ {α : Type} (seq : List α) (n_chunks : ℤ) : Option (List (List α)) :=
  if n_chunks = 0 then none
  else
    let k := Int.fdiv seq.length n_chunks
    let m := Int.fmod seq.length n_chunks
    some ((((List.range n_chunks.toNat).map (fun (i : ℕ) =>
        pySlice seq ((i : ℤ) * k + min (i : ℤ) m) (((i : ℤ) + 1) * k + min ((i : ℤ) + 1) m)))).filter
      (fun c => !c.isEmpty))

/-- `map_close`: the map worker materialises the chunk's values. -/
def map_close (series_chunk : List ℚ) : List ℚ := series_chunk

/-- `reduce_concat`: `reduce(lambda a, b: a + b, lists, [])`. -/
def reduce_concat (lists : List (List ℚ)) : List ℚ := lists.foldl (fun a b => a ++ b) []

/-- The non-NaN entries of a float list (what the `np.nan*` reductions
operate on). -/
def nonNan (l : List PyF) : List PyF := l.filter (fun x => !x.isNan)

/-- Sum of a float list (pandas/numpy accumulation). -/
def pySum (l : List PyF) : PyF := l.foldl PyF.add (.fin 0)

/-- `np.nanmean`: sum of the non-NaN entries over their count; an empty
or all-NaN input yields `0/0 = NaN` (numpy warns but does not raise). -/
def nanmean (l : List PyF) : PyF :=
  PyF.div (pySum (nonNan l)) (.fin ((nonNan l).length : ℚ))

/-- `np.nanmin` on a non-empty array: minimum of the non-NaN entries,
NaN if all entries are NaN. -/
def nanminP (l : List PyF) : PyF := (nonNan l).foldl PyF.min2 .nan

/-- `np.nanmax` on a non-empty array. -/
def nanmaxP (l : List PyF) : PyF := (nonNan l).foldl PyF.max2 .nan

/-- The variance computed by `np.nanstd(arr, ddof=1)` (the code's `std`
is the square root of this): sum of squared deviations of the non-NaN
entries over `count - 1`; NaN when the count of non-NaN entries is
below 2 (degrees of freedom ≤ 0). -/
def nanvar1 (l : List PyF) : PyF :=
  let xs := nonNan l
  if xs.length = 0 then .nan
  else
    let m := nanmean l
    PyF.div ((xs.map (fun x => PyF.mul (PyF.sub x m) (PyF.sub x m))).foldl PyF.add (.fin 0))
      (.fin ((xs.length : ℚ) - 1))

/-- The four scalars computed by `compute_stats_from_list`; the Python
dict stores `std = sqrt var`. -/
structure Stats where
  mean : PyF
  min : PyF
  max : PyF
  var : PyF
deriving DecidableEq

/-- `compute_stats_from_list(values)`: builds the stats dict.  On an
empty array `np.nanmin` raises `ValueError` ("zero-size array to
reduction operation"), so the whole call fails there. -/
def compute_stats_from_list (values : List PyF) : Except String Stats :=
  if values.isEmpty then .error "ValueError"
  else .ok ⟨nanmean values, nanminP values, nanmaxP values, nanvar1 values⟩

/-- Rolling mean of window `p` (pandas `rolling(window=p).mean()` with
the default `min_periods = p`): NaN while the window is incomplete,
otherwise the window sum over `p`. -/
def rollMean (p : ℕ) (f : ℕ → PyF) (i : ℕ) : PyF :=
  if i + 1 < p then .nan
  else PyF.div (((List.range p).map (fun j => f (i + 1 - p + j))).foldl PyF.add (.fin 0))
    (.fin (p : ℚ))

/-- Rolling mean of a rational series, materialised as a float list. -/
def rollingMeanList (p : ℕ) (c : List ℚ) : List PyF :=
  (List.range c.length).map (rollMean p (fun t => PyF.fin (c.getD t 0)))

/-- Pointwise `close.pct_change()`: NaN at index 0, otherwise
`Close[i]/Close[i-1] - 1` with IEEE division. -/
def pct_change_at (c : List ℚ) (i : ℕ) : PyF :=
  if i = 0 then .nan
  else PyF.sub (PyF.div (.fin (c.getD i 0)) (.fin (c.getD (i - 1) 0))) (.fin 1)

/-- `close_series.pct_change().dropna()`. -/
def returns_of (c : List ℚ) : List PyF :=
  ((List.range c.length).map (pct_change_at c)).filter (fun x => !x.isNan)

/-- The variance computed inside `np.std(arr, ddof=1)` (no NaN
skipping); `calculate_volatility`'s std is its square root. -/
def varDdof1 (l : List PyF) : PyF :=
  if l.length = 0 then .nan
  else
    let m := PyF.div (pySum l) (.fin (l.length : ℚ))
    PyF.div ((l.map (fun x => PyF.mul (PyF.sub x m) (PyF.sub x m))).foldl PyF.add (.fin 0))
      (.fin ((l.length : ℚ) - 1))

/-- `calculate_volatility(returns)` = `np.std(returns, ddof=1) * sqrt 252`
= `sqrt (252 * var)` when the variance is finite (kept symbolic),
otherwise the propagated special value. -/
def calculate_volatility (returns_series : List PyF) : Val :=
  match varDdof1 returns_series with
  | .fin q => .sqrtQ (252 * q)
  | x => .num x

/-- `calculate_cumulative_return(returns)` = `(1 + returns).prod() - 1`. -/
def calculate_cumulative_return (returns_series : List PyF) : PyF :=
  PyF.sub ((returns_series.map (fun r => PyF.add (.fin 1) r)).foldl PyF.mul (.fin 1)) (.fin 1)

/-- `close_series.cummax()` pointwise: the running maximum of
`Close[0..i]`. -/
def peakAt (c : List ℚ) : ℕ → ℚ
  | 0 => c.getD 0 0
  | i + 1 => max (peakAt c i) (c.getD (i + 1) 0)

/-- Pointwise drawdown `close / peak - 1` with IEEE division. -/
def drawdownAt (c : List ℚ) (i : ℕ) : PyF :=
  PyF.sub (PyF.div (.fin (c.getD i 0)) (.fin (peakAt c i))) (.fin 1)

/-- `calculate_max_drawdown(close)`: minimum of the drawdown series
(`Series.min` skips NaN; NaN when the series is empty or all-NaN). -/
def calculate_max_drawdown (close_series : List ℚ) : PyF :=
  nanminP ((List.range close_series.length).map (drawdownAt close_series))

/-- `stats.get(k)` on the dict built by `compute_stats_from_list`; the
`std` entry is the float square root of the stored variance.  The loop
in `map_reduce_stats` only queries the four keys below. -/
def statsDictGet (s : Stats) (k : String) : Val :=
  if k = "mean" then .num s.mean
  else if k = "min" then .num s.min
  else if k = "max" then .num s.max
  else if k = "std" then (match s.var with | .fin q => .sqrtQ q | x => .num x)
  else .num .nan

/-- `map_reduce_stats(df, metrics, moving_average_days)` from
src/mapreduce_utils.py.
* `df`: `none` models a frame without a `Close` column (`df["Close"]`
  raises `KeyError`); otherwise the `Close` column with possible nulls.
* `metricsOpt = none` models the Python default `metrics=None`, which
  becomes `["mean", "min", "max"]`.
* `n_workers` stands for `min(cpu_count(), 4) or 1` (always ≥ 1).
The column is `dropna`-ed, chunkified, mapped by the identity worker
`map_close` (the pool preserves chunk order), re-concatenated, and the
requested metrics are inserted in source order.  Requesting
`moving_average` stores the series under the key
`f"ma_{moving_average_days}"`. -/
def map_reduce_stats (df : Option (List (Option ℚ))) (metricsOpt : Option (List String))
    (moving_average_days : ℕ) (n_workers : ℕ) : Except String (List (String × Val)) :=
  match df with
  | none => .error "KeyError"
  | some closeCol =>
    let metrics := metricsOpt.getD ["mean", "min", "max"]
    let close_series : List ℚ := closeCol.filterMap id
    let chunks := chunkify close_series n_workers
    let mapped := chunks.map map_close
    let all_values := reduce_concat mapped
    match compute_stats_from_list (all_values.map PyF.fin) with
    | .error e => .error e
    | .ok stats =>
      let base := (["mean", "min", "max", "std"].filter (fun k => metrics.contains k)).map
        (fun k => (k, statsDictGet stats k))
      let needReturns := ["returns", "volatility", "cumulative_return"].any
        (fun m => metrics.contains m)
      let returnsOpt : Option (List PyF) :=
        if needReturns then some (returns_of close_series) else none
      let rRet := match returnsOpt with
        | some rs => if metrics.contains "returns" then [("returns", Val.series rs)] else []
        | none => []
      let rVol := match returnsOpt with
        | some rs =>
            if metrics.contains "volatility" then [("volatility", calculate_volatility rs)]
            else []
        | none => []
      let rCum := match returnsOpt with
        | some rs =>
            if metrics.contains "cumulative_return" then
              [("cumulative_return", Val.num (calculate_cumulative_return rs))]
            else []
        | none => []
      let rMdd :=
        if metrics.contains "max_drawdown" then
          [("max_drawdown", Val.num (calculate_max_drawdown close_series))]
        else []
      let rMa :=
        if metrics.contains "moving_average" then
          [("ma_" ++ toString moving_average_days,
            Val.series (rollingMeanList moving_average_days close_series))]
        else []
      .ok (base ++ rRet ++ rVol ++ rCum ++ rMdd ++ rMa)

/-- The key list of a result dictionary. -/
def keysOf (l : List (String × Val)) : List String := l.map Prod.fst

/- ----------------------------------------------------------------
   src/app.py
   ---------------------------------------------------------------- -/

/-- `df['Close'].diff()` pointwise: NaN at index 0. -/
def delta (c : List ℚ) (i : ℕ) : PyF :=
  if i = 0 then .nan else .fin (c.getD i 0 - c.getD (i - 1) 0)

/-- `delta.where(delta > 0, 0)` pointwise (the NaN at index 0 fails the
comparison and is replaced by 0). -/
def ganhoRaw (c : List ℚ) (i : ℕ) : PyF :=
  if (delta c i).gt0 then delta c i else .fin 0

/-- `-delta.where(delta < 0, 0)` pointwise. -/
def perdaRaw (c : List ℚ) (i : ℕ) : PyF :=
  PyF.neg (if (delta c i).lt0 then delta c i else .fin 0)

/-- `ganho` in `calcular_rsi`: rolling mean of the masked gains. -/
def ganho (c : List ℚ) (periodo i : ℕ) : PyF := rollMean periodo (ganhoRaw c) i

/-- `perda` in `calcular_rsi`: rolling mean of the masked losses. -/
def perda (c : List ℚ) (periodo i : ℕ) : PyF := rollMean periodo (perdaRaw c) i

/-- `rs = ganho / perda` pointwise. -/
def rsAt (c : List ℚ) (periodo i : ℕ) : PyF := PyF.div (ganho c periodo i) (perda c periodo i)

/-- `rsi = 100 - 100 / (1 + rs)` pointwise. -/
def rsiAt (c : List ℚ) (periodo i : ℕ) : PyF :=
  PyF.sub (.fin 100) (PyF.div (.fin 100) (PyF.add (.fin 1) (rsAt c periodo i)))

/-- `calcular_rsi(df, periodo)` (source default `periodo = 14`). -/
def calcular_rsi (c : List ℚ) (periodo : ℕ) : List PyF :=
  (List.range c.length).map (rsiAt c periodo)

/-- `Series.ewm(span, adjust=False).mean()` pointwise on a total index
function: `y0 = x0`, `y[i+1] = (1-a) * y[i] + a * x[i+1]`. -/
def ewmAt (a : ℚ) (x : ℕ → ℚ) : ℕ → ℚ
  | 0 => x 0
  | i + 1 => (1 - a) * ewmAt a x i + a * x (i + 1)

/-- EMA of the close series with smoothing `a = 2/(span+1)`. -/
def emaAt (span : ℕ) (c : List ℚ) (i : ℕ) : ℚ :=
  ewmAt (2 / ((span : ℚ) + 1)) (fun t => c.getD t 0) i

/-- `macd = ema_rapida - ema_lenta` pointwise. -/
def macdAt (c : List ℚ) (rapido lento i : ℕ) : ℚ :=
  emaAt rapido c i - emaAt lento c i

/-- `linha_sinal = macd.ewm(span=sinal, adjust=False).mean()` pointwise. -/
def linhaSinalAt (c : List ℚ) (rapido lento sinal i : ℕ) : ℚ :=
  ewmAt (2 / ((sinal : ℚ) + 1)) (macdAt c rapido lento) i

/-- `histograma = macd - linha_sinal` pointwise. -/
def histogramaAt (c : List ℚ) (rapido lento sinal i : ℕ) : ℚ :=
  macdAt c rapido lento i - linhaSinalAt c rapido lento sinal i

/-- `calcular_macd(df, rapido, lento, sinal)` (source defaults
12, 26, 9): the three aligned series. -/
def calcular_macd (c : List ℚ) (rapido lento sinal : ℕ) :
    List ℚ × List ℚ × List ℚ :=
  ((List.range c.length).map (macdAt c rapido lento),
   (List.range c.length).map (linhaSinalAt c rapido lento sinal),
   (List.range c.length).map (histogramaAt c rapido lento sinal))

/-- Round half to even to an integer (Python `round` tie-breaking). -/
def rhe (q : ℚ) : ℤ :=
  let f := ⌊q⌋
  if q - f < 1/2 then f
  else if 1/2 < q - f then f + 1
  else if Even f then f else f + 1

/-- Python `round(x, 1)` on exact values. -/
def round1 (q : ℚ) : ℚ := (rhe (q * 10) : ℚ) / 10

/-- `calcular_score_performance(retorno_acumulado, volatilidade)` from
src/app.py.  Note the volatility penalty has no lower clamp in the
source: `min(volatilidade * 100 / 20, 5)`. -/
def calcular_score_performance (retorno_acumulado volatilidade : ℚ) : ℚ :=
  let score_retorno := min (max ((retorno_acumulado * 100 + 50) / 10) 0) 10
  let penalidade_volatilidade := min (volatilidade * 100 / 20) 5
  let score_final := max (score_retorno - penalidade_volatilidade) 0
  round1 score_final

/- ----------------------------------------------------------------
   Spec-side definitions (written from the specification's words, for
   the refinement-style comparisons).
   ---------------------------------------------------------------- -/

/-- The finite (non-special) payloads of a float list. -/
def finitesQ (l : List PyF) : List ℚ :=
  l.filterMap (fun x => match x with | .fin q => some q | _ => none)

/-- Minimum of a rational list (meaningful for non-empty input). -/
def specMinQ (l : List ℚ) : ℚ := l.foldl min (l.getD 0 0)

/-- Maximum of a rational list (meaningful for non-empty input). -/
def specMaxQ (l : List ℚ) : ℚ := l.foldl max (l.getD 0 0)

/-- Spec-side running peak: `max (Close[0..t])`. -/
def specPeak (c : List ℚ) (t : ℕ) : ℚ := specMaxQ (c.take (t + 1))

/-- Spec-side drawdown list `Close[t]/peak[t] - 1`. -/
def specDrawdowns (c : List ℚ) : List ℚ :=
  (List.range c.length).map (fun t => c.getD t 0 / specPeak c t - 1)

/-- Chunk boundary `i` of `chunkify`: the start offset of chunk `i`
(`i * k + min i m` with `k = N div n`, `m = N mod n`). -/
def cb (N n i : ℕ) : ℕ := i * (N / n) + min i (N % n)

deriving instance DecidableEq for Except

/- ================================================================
   Theorems
   ================================================================ -/

/- ----------------------------------------------------------------
   Partitioner: chunkify (claims C1 and C3)
   ---------------------------------------------------------------- -/

lemma cb_zero (N n : ℕ) : cb N n 0 = 0 := by simp [cb]

lemma cb_succ_sub (N n i : ℕ) :
    cb N n (i + 1) - cb N n i = N / n + (if i < N % n then 1 else 0) := by
  have h : (i + 1) * (N / n) = i * (N / n) + N / n := by ring
  simp only [cb, h, Nat.min_def]
  generalize N / n = k
  generalize N % n = m
  split_ifs <;> omega

lemma cb_mono (N n i : ℕ) : cb N n i ≤ cb N n (i + 1) := by
  have h : (i + 1) * (N / n) = i * (N / n) + N / n := by ring
  simp only [cb, h, Nat.min_def]
  generalize N / n = k
  generalize N % n = m
  split_ifs <;> omega

lemma cb_mono_le (N n : ℕ) {i j : ℕ} (h : i ≤ j) : cb N n i ≤ cb N n j := by
  induction j with
  | zero => simp [Nat.le_zero.mp h]
  | succ j ih =>
    rcases Nat.lt_or_ge i (j + 1) with hj | hj
    · exact le_trans (ih (by omega)) (cb_mono N n j)
    · simp [show i = j + 1 by omega]

lemma cb_last (N n : ℕ) (hn : 0 < n) : cb N n n = N := by
  have hm : N % n < n := Nat.mod_lt _ hn
  simp only [cb, min_eq_right (le_of_lt hm)]
  exact Nat.div_add_mod N n

lemma flatten_slices {α : Type} (seq : List α) (g : ℕ → ℕ) (h0 : g 0 = 0)
    (hm : ∀ i, g i ≤ g (i + 1)) :
    ∀ n, (((List.range n).map (fun i => (seq.drop (g i)).take (g (i + 1) - g i)))).flatten =
      seq.take (g n) := by
  intro n
  induction n with
  | zero => simp [h0]
  | succ n ih =>
    rw [List.range_succ, List.map_append, List.flatten_append, ih]
    simp only [List.map_cons, List.map_nil, List.flatten_cons, List.flatten_nil,
      List.append_nil]
    rw [← List.take_add]
    congr 1
    have := hm n
    omega

lemma flatten_filter_nonempty {α : Type} (l : List (List α)) :
    (l.filter (fun c => !c.isEmpty)).flatten = l.flatten := by
  induction l with
  | nil => rfl
  | cons h t ih =>
    cases h with
    | nil => simpa using ih
    | cons a as => simpa using ih

lemma chunkify_eq_filter_map {α : Type} (seq : List α) (n : ℕ) :
    chunkify seq n = ((List.range n).map (fun i =>
      (seq.drop (cb seq.length n i)).take (cb seq.length n (i + 1) - cb seq.length n i))).filter
      (fun c => !c.isEmpty) := rfl

lemma chunkify_flatten {α : Type} (seq : List α) (n : ℕ) (hn : 0 < n) :
    (chunkify seq n).flatten = seq := by
  rw [chunkify_eq_filter_map, flatten_filter_nonempty,
    flatten_slices seq (cb seq.length n) (cb_zero _ _) (cb_mono _ _) n,
    cb_last _ _ hn, List.take_length]

lemma chunk_len {α : Type} (seq : List α) (n i : ℕ) (hn : 0 < n) (hi : i < n) :
    ((seq.drop (cb seq.length n i)).take (cb seq.length n (i + 1) - cb seq.length n i)).length =
      cb seq.length n (i + 1) - cb seq.length n i := by
  rw [List.length_take, List.length_drop]
  have h1 : cb seq.length n (i + 1) ≤ seq.length := by
    calc cb seq.length n (i + 1) ≤ cb seq.length n n := cb_mono_le _ _ (by omega)
    _ = seq.length := cb_last _ _ hn
  have h2 := cb_mono seq.length n i
  omega

/-- The number of chunks actually returned: all `n` when `k ≥ 1`,
otherwise only the `N mod n` singleton chunks survive the filter. -/
lemma list_not_isEmpty_of_length {α : Type} {l : List α} (h : l.length ≠ 0) :
    (!l.isEmpty) = true := by
  cases l with
  | nil => simp at h
  | cons a t => rfl

lemma list_isEmpty_of_length {α : Type} {l : List α} (h : l.length = 0) :
    (!l.isEmpty) = false := by
  cases l with
  | nil => rfl
  | cons a t => simp at h

lemma chunkify_characterization {α : Type} (seq : List α) (n : ℕ) (hn : 0 < n) :
    chunkify seq n = (List.range (if seq.length / n = 0 then seq.length % n else n)).map
      (fun i => (seq.drop (cb seq.length n i)).take
        (cb seq.length n (i + 1) - cb seq.length n i)) := by
  rw [chunkify_eq_filter_map]
  rcases Nat.eq_zero_or_pos (seq.length / n) with hk | hk
  · rw [if_pos hk]
    have hmn : seq.length % n ≤ n := le_of_lt (Nat.mod_lt _ hn)
    have hsplit : List.range n = List.range (seq.length % n) ++
        (List.range (n - seq.length % n)).map (fun x => seq.length % n + x) := by
      conv_lhs => rw [show n = seq.length % n + (n - seq.length % n) by omega]
      rw [List.range_add]
    rw [hsplit, List.map_append, List.filter_append]
    have hfirst : ((List.range (seq.length % n)).map
        (fun i => (seq.drop (cb seq.length n i)).take
          (cb seq.length n (i + 1) - cb seq.length n i))).filter (fun c => !c.isEmpty) =
        (List.range (seq.length % n)).map
        (fun i => (seq.drop (cb seq.length n i)).take
          (cb seq.length n (i + 1) - cb seq.length n i)) := by
      apply List.filter_eq_self.mpr
      intro c hc
      rw [List.mem_map] at hc
      obtain ⟨i, hi, rfl⟩ := hc
      rw [List.mem_range] at hi
      have hlen := chunk_len seq n i hn (by omega)
      have hsz : cb seq.length n (i + 1) - cb seq.length n i = seq.length / n + 1 := by
        rw [cb_succ_sub, if_pos hi]
      exact list_not_isEmpty_of_length (by omega)
    have hsecond : (((List.range (n - seq.length % n)).map (fun x => seq.length % n + x)).map
        (fun i => (seq.drop (cb seq.length n i)).take
          (cb seq.length n (i + 1) - cb seq.length n i))).filter (fun c => !c.isEmpty) = [] := by
      rw [List.filter_eq_nil_iff]
      intro c hc
      rw [List.mem_map] at hc
      obtain ⟨i, hi, rfl⟩ := hc
      rw [List.mem_map] at hi
      obtain ⟨j, hj, rfl⟩ := hi
      have hsz : cb seq.length n (seq.length % n + j + 1) - cb seq.length n (seq.length % n + j) =
          0 := by
        rw [cb_succ_sub, if_neg (by omega), hk]
      have : ((seq.drop (cb seq.length n (seq.length % n + j))).take
          (cb seq.length n (seq.length % n + j + 1) - cb seq.length n (seq.length % n + j))).length
          = 0 := by
        rw [List.length_take, hsz]
        omega
      simp [list_isEmpty_of_length this]
    rw [hfirst, hsecond, List.append_nil]
  · rw [if_neg (by omega)]
    apply List.filter_eq_self.mpr
    intro c hc
    rw [List.mem_map] at hc
    obtain ⟨i, hi, rfl⟩ := hc
    rw [List.mem_range] at hi
    have hlen := chunk_len seq n i hn hi
    have hsz : seq.length / n ≤ cb seq.length n (i + 1) - cb seq.length n i := by
      rw [cb_succ_sub]; omega
    exact list_not_isEmpty_of_length (by omega)

lemma chunkify_length_count {α : Type} (seq : List α) (n : ℕ) (hn : 0 < n) :
    (chunkify seq n).length = if seq.length / n = 0 then seq.length % n else n := by
  rw [chunkify_characterization seq n hn]
  simp

lemma chunkify_mem_length {α : Type} (seq : List α) (n : ℕ) (hn : 0 < n) :
    ∀ c ∈ chunkify seq n,
      c.length = seq.length / n ∨ c.length = seq.length / n + 1 := by
  intro c hc
  rw [chunkify_characterization seq n hn, List.mem_map] at hc
  obtain ⟨i, hi, rfl⟩ := hc
  rw [List.mem_range] at hi
  have hin : i < n := by
    rcases Nat.eq_zero_or_pos (seq.length / n) with hk | hk
    · rw [if_pos hk] at hi
      have := Nat.mod_lt seq.length hn
      omega
    · rw [if_neg (by omega)] at hi
      exact hi
  rw [chunk_len seq n i hn hin, cb_succ_sub]
  split_ifs <;> omega

lemma chunkify_get_length {α : Type} (seq : List α) (n : ℕ) (hn : 0 < n)
    (i : ℕ) (hi : i < (chunkify seq n).length) :
    ((chunkify seq n).get ⟨i, hi⟩).length =
      if i < seq.length % n then seq.length / n + 1 else seq.length / n := by
  have hc := chunkify_characterization seq n hn
  have hi2 : i < ((List.range (if seq.length / n = 0 then seq.length % n else n)).map
      (fun j => (seq.drop (cb seq.length n j)).take
        (cb seq.length n (j + 1) - cb seq.length n j))).length := by
    rw [← hc]; exact hi
  rw [List.get_of_eq hc ⟨i, hi⟩]
  have hin : i < n := by
    simp only [List.length_map, List.length_range] at hi2
    rcases Nat.eq_zero_or_pos (seq.length / n) with hk | hk
    · rw [if_pos hk] at hi2
      have := Nat.mod_lt seq.length hn
      omega
    · rw [if_neg (by omega)] at hi2
      exact hi2
  have hidx : ∀ (h2 : i < ((List.range (if seq.length / n = 0 then seq.length % n else n)).map
      (fun j => (seq.drop (cb seq.length n j)).take
        (cb seq.length n (j + 1) - cb seq.length n j))).length),
      ((List.range (if seq.length / n = 0 then seq.length % n else n)).map
      (fun j => (seq.drop (cb seq.length n j)).take
        (cb seq.length n (j + 1) - cb seq.length n j))).get ⟨i, h2⟩ =
      (seq.drop (cb seq.length n i)).take (cb seq.length n (i + 1) - cb seq.length n i) := by
    intro h2
    simp
  rw [hidx]
  rw [chunk_len seq n i hn hin, cb_succ_sub]
  split_ifs <;> omega

/-- Claim C1: for a non-empty sequence and a positive worker count,
`chunkify` returns a partition: concatenating the chunks in order
restores the sequence; every chunk is non-empty; there are at most
`n_chunks` chunks; chunk `i` has size `N div n + 1` for `i < N mod n`
and `N div n` otherwise; any two chunk sizes differ by at most 1. -/
theorem chunkify_balanced_partition {α : Type} (seq : List α) (n : ℕ)
    (_hN : 1 ≤ seq.length) (hn : 1 ≤ n) :
    (chunkify seq n).flatten = seq ∧
    (∀ c ∈ chunkify seq n, c ≠ []) ∧
    (chunkify seq n).length ≤ n ∧
    (∀ (i : ℕ) (hi : i < (chunkify seq n).length),
      ((chunkify seq n).get ⟨i, hi⟩).length =
        if i < seq.length % n then seq.length / n + 1 else seq.length / n) ∧
    (∀ c1 ∈ chunkify seq n, ∀ c2 ∈ chunkify seq n, c1.length ≤ c2.length + 1) := by
  refine ⟨chunkify_flatten seq n hn, ?_, ?_, chunkify_get_length seq n hn, ?_⟩
  · intro c hc
    rw [chunkify_eq_filter_map, List.mem_filter] at hc
    rcases hc with ⟨-, hp⟩
    cases c with
    | nil => simp at hp
    | cons a t => simp
  · calc (chunkify seq n).length
        ≤ ((List.range n).map (fun i => (seq.drop (cb seq.length n i)).take
            (cb seq.length n (i + 1) - cb seq.length n i))).length := by
          rw [chunkify_eq_filter_map]
          exact List.length_filter_le _ _
    _ = n := by simp
  · intro c1 h1 c2 h2
    rcases chunkify_mem_length seq n hn c1 h1 with ha | ha <;>
      rcases chunkify_mem_length seq n hn c2 h2 with hb | hb <;> omega

/-- Witness for C1 at `seq = [10, 20, 30, 40, 50]`, `n = 2`. -/
theorem chunkify_balanced_partition_witness :
    ((chunkify [10, 20, 30, 40, 50] 2).flatten = [10, 20, 30, 40, 50] ∧
    (∀ c ∈ chunkify [10, 20, 30, 40, 50] 2, c ≠ []) ∧
    (chunkify [10, 20, 30, 40, 50] 2).length ≤ 2 ∧
    (∀ (i : ℕ) (hi : i < (chunkify [10, 20, 30, 40, 50] 2).length),
      ((chunkify ([10, 20, 30, 40, 50] : List ℕ) 2).get ⟨i, hi⟩).length =
        if i < ([10, 20, 30, 40, 50] : List ℕ).length % 2 then
          ([10, 20, 30, 40, 50] : List ℕ).length / 2 + 1
        else ([10, 20, 30, 40, 50] : List ℕ).length / 2) ∧
    (∀ c1 ∈ chunkify [10, 20, 30, 40, 50] 2, ∀ c2 ∈ chunkify [10, 20, 30, 40, 50] 2,
      c1.length ≤ c2.length + 1)) :=
  chunkify_balanced_partition ([10, 20, 30, 40, 50] : List ℕ) 2 (by decide) (by decide)

lemma pyIndex_natCast (len a : ℕ) : pyIndex len (a : ℤ) = min a len := by
  simp [pyIndex]

lemma pySlice_natCast {α : Type} (l : List α) (a b : ℕ) :
    pySlice l (a : ℤ) (b : ℤ) = (l.drop a).take (b - a) := by
  simp only [pySlice, pyIndex_natCast]
  rcases le_or_lt a l.length with ha | ha
  · rw [min_eq_left ha]
    rcases le_or_lt b l.length with hb | hb
    · rw [min_eq_left hb]
    · rw [min_eq_right (le_of_lt hb)]
      rw [List.take_of_length_le (by rw [List.length_drop]),
        List.take_of_length_le (by rw [List.length_drop]; omega)]
  · rw [min_eq_right (le_of_lt ha), List.drop_length,
      List.drop_eq_nil_of_le (le_of_lt ha)]
    simp

lemma chunkifyZ_pos {α : Type} (seq : List α) (w : ℕ) (hw : 1 ≤ w) :
    chunkifyZ seq (w : ℤ) = some (chunkify seq w) := by
  have hw0 : (w : ℤ) ≠ 0 := by exact_mod_cast Nat.one_le_iff_ne_zero.mp hw
  rw [chunkifyZ, if_neg hw0, chunkify_eq_filter_map]
  have hfd : Int.fdiv (seq.length : ℤ) (w : ℤ) = ((seq.length / w : ℕ) : ℤ) := by
    rw [Int.fdiv_eq_ediv _ (by positivity), Int.ofNat_ediv]
  have hfm : Int.fmod (seq.length : ℤ) (w : ℤ) = ((seq.length % w : ℕ) : ℤ) := by
    rw [Int.fmod_eq_emod _ (by positivity), Int.ofNat_emod]
  rw [Int.toNat_natCast, hfd, hfm]
  have hmap : (List.range w).map (fun (i : ℕ) =>
      pySlice seq ((i : ℤ) * ((seq.length / w : ℕ) : ℤ) + min (i : ℤ) ((seq.length % w : ℕ) : ℤ))
        (((i : ℤ) + 1) * ((seq.length / w : ℕ) : ℤ) +
          min ((i : ℤ) + 1) ((seq.length % w : ℕ) : ℤ))) =
      (List.range w).map (fun i => (seq.drop (cb seq.length w i)).take
        (cb seq.length w (i + 1) - cb seq.length w i)) := by
    apply List.map_congr_left
    intro i hi
    have e1 : ((i : ℤ) * ((seq.length / w : ℕ) : ℤ) + min (i : ℤ) ((seq.length % w : ℕ) : ℤ)) =
        ((i * (seq.length / w) + min i (seq.length % w) : ℕ) : ℤ) := by
      push_cast
      ring_nf
    have e2 : (((i : ℤ) + 1) * ((seq.length / w : ℕ) : ℤ) +
        min ((i : ℤ) + 1) ((seq.length % w : ℕ) : ℤ)) =
        (((i + 1) * (seq.length / w) + min (i + 1) (seq.length % w) : ℕ) : ℤ) := by
      push_cast
      ring_nf
    rw [e1, e2, pySlice_natCast]
    simp [cb]
  exact congrArg (fun l => some (List.filter (fun c => !c.isEmpty) l)) hmap

/-- Claim C3 (amended): `chunkify` never raises only for a positive
worker count, where it agrees with the Nat-level model; `n_chunks = 0`
raises `ZeroDivisionError`; a negative `n_chunks` silently returns an
empty chunk list (there is no clamp to 1 in the source). -/
theorem chunkify_workerCount_behavior {α : Type} (seq : List α) (n : ℤ) :
    (1 ≤ n → chunkifyZ seq n = some (chunkify seq n.toNat)) ∧
    (n = 0 → chunkifyZ seq n = none) ∧
    (n < 0 → chunkifyZ seq n = some []) := by
  refine ⟨?_, ?_, ?_⟩
  · intro hn
    have : n = ((n.toNat : ℕ) : ℤ) := by omega
    rw [this]
    exact chunkifyZ_pos seq n.toNat (by omega)
  · intro hn
    rw [chunkifyZ, if_pos hn]
  · intro hn
    rw [chunkifyZ, if_neg (by omega), Int.toNat_of_nonpos (le_of_lt hn)]
    simp

/-- Witness for C3 (amended) at `n = 2`, `n = 0` and `n = -3`. -/
theorem chunkify_workerCount_behavior_witness :
    (chunkifyZ ([7, 8, 9] : List ℕ) 2 = some (chunkify [7, 8, 9] (2 : ℤ).toNat)) ∧
    (chunkifyZ ([7, 8, 9] : List ℕ) 0 = none) ∧
    (chunkifyZ ([7, 8, 9] : List ℕ) (-3) = some []) :=
  ⟨(chunkify_workerCount_behavior ([7, 8, 9] : List ℕ) 2).1 (by decide),
   (chunkify_workerCount_behavior ([7, 8, 9] : List ℕ) 0).2.1 (by decide),
   (chunkify_workerCount_behavior ([7, 8, 9] : List ℕ) (-3)).2.2 (by decide)⟩

/-- Counterexample to C3 as stated: `chunkify` with `workerCount = 0`
raises `ZeroDivisionError` instead of clamping to 1, and with
`workerCount = -1` returns no chunks instead of one chunk holding the
whole sequence. -/
theorem chunkify_no_clamp_counterexample :
    chunkifyZ ([1] : List ℚ) 0 = none ∧
    chunkifyZ ([1, 2] : List ℚ) (-1) = some [] ∧
    chunkify ([1, 2] : List ℚ) 1 = [[1, 2]] ∧
    (some [] : Option (List (List ℚ))) ≠ some [[1, 2]] := by
  refine ⟨?_, ?_, ?_, ?_⟩ <;> decide

/- ----------------------------------------------------------------
   Reducer stats: compute_stats_from_list (claim C5)
   ---------------------------------------------------------------- -/

lemma PyF.add_fin (a b : ℚ) : PyF.add (.fin a) (.fin b) = .fin (a + b) := rfl

lemma PyF.sub_fin (a b : ℚ) : PyF.sub (.fin a) (.fin b) = .fin (a - b) := by
  show PyF.fin (a + -b) = _
  rw [← sub_eq_add_neg]

lemma PyF.mul_fin (a b : ℚ) : PyF.mul (.fin a) (.fin b) = .fin (a * b) := rfl

lemma PyF.div_fin (a b : ℚ) : PyF.div (.fin a) (.fin b) =
    if b = 0 then (if 0 < a then .inf else if a < 0 then .ninf else .nan)
    else .fin (a / b) := rfl

lemma foldl_add_fin (l : List ℚ) (a : ℚ) :
    (l.map PyF.fin).foldl PyF.add (.fin a) = .fin (a + l.sum) := by
  induction l generalizing a with
  | nil => simp
  | cons q t ih =>
    simp only [List.map_cons, List.foldl_cons, List.sum_cons]
    rw [show PyF.add (.fin a) (.fin q) = .fin (a + q) from rfl, ih]
    ring_nf

lemma pySum_fin (l : List ℚ) : pySum (l.map PyF.fin) = .fin l.sum := by
  simpa using foldl_add_fin l 0

lemma foldl_min2_fin (l : List ℚ) (a : ℚ) :
    (l.map PyF.fin).foldl PyF.min2 (.fin a) = .fin (l.foldl min a) := by
  induction l generalizing a with
  | nil => simp
  | cons q t ih =>
    simp only [List.map_cons, List.foldl_cons]
    rw [show PyF.min2 (.fin a) (.fin q) = .fin (min a q) from rfl, ih]

lemma foldl_max2_fin (l : List ℚ) (a : ℚ) :
    (l.map PyF.fin).foldl PyF.max2 (.fin a) = .fin (l.foldl max a) := by
  induction l generalizing a with
  | nil => simp
  | cons q t ih =>
    simp only [List.map_cons, List.foldl_cons]
    rw [show PyF.max2 (.fin a) (.fin q) = .fin (max a q) from rfl, ih]

lemma nonNan_map_fin (l : List ℚ) : nonNan (l.map PyF.fin) = l.map PyF.fin := by
  rw [nonNan, List.filter_eq_self]
  intro x hx
  obtain ⟨q, -, rfl⟩ := List.mem_map.mp hx
  rfl

lemma foldl_min2_start (xs : List ℚ) (hne : xs ≠ []) :
    (xs.map PyF.fin).foldl PyF.min2 .nan = .fin (specMinQ xs) := by
  cases xs with
  | nil => exact absurd rfl hne
  | cons q t =>
    simp only [List.map_cons, List.foldl_cons]
    rw [show PyF.min2 .nan (.fin q) = .fin q from rfl, foldl_min2_fin]
    rw [specMinQ]
    simp [min_self]

lemma nanminP_fins (xs : List ℚ) (hne : xs ≠ []) :
    nanminP (xs.map PyF.fin) = .fin (specMinQ xs) := by
  rw [nanminP, nonNan_map_fin]
  exact foldl_min2_start xs hne

lemma foldl_max2_start (xs : List ℚ) (hne : xs ≠ []) :
    (xs.map PyF.fin).foldl PyF.max2 .nan = .fin (specMaxQ xs) := by
  cases xs with
  | nil => exact absurd rfl hne
  | cons q t =>
    simp only [List.map_cons, List.foldl_cons]
    rw [show PyF.max2 .nan (.fin q) = .fin q from rfl, foldl_max2_fin]
    rw [specMaxQ]
    simp [max_self]

lemma nanmaxP_fins (xs : List ℚ) (hne : xs ≠ []) :
    nanmaxP (xs.map PyF.fin) = .fin (specMaxQ xs) := by
  rw [nanmaxP, nonNan_map_fin]
  exact foldl_max2_start xs hne

lemma nonNan_eq_finites (l : List PyF) (h : ∀ x ∈ l, x = .nan ∨ ∃ q, x = .fin q) :
    nonNan l = (finitesQ l).map PyF.fin := by
  induction l with
  | nil => rfl
  | cons x t ih =>
    have hx := h x (List.mem_cons_self x t)
    have ht := ih (fun y hy => h y (List.mem_cons_of_mem x hy))
    rcases hx with rfl | ⟨q, rfl⟩
    · have h1 : nonNan (PyF.nan :: t) = nonNan t := by simp [nonNan, PyF.isNan]
      have h2 : finitesQ (PyF.nan :: t) = finitesQ t := by
        simp [finitesQ, List.filterMap_cons]
      rw [h1, h2, ht]
    · have h1 : nonNan (PyF.fin q :: t) = PyF.fin q :: nonNan t := by
        simp [nonNan, PyF.isNan]
      have h2 : finitesQ (PyF.fin q :: t) = q :: finitesQ t := by
        simp [finitesQ, List.filterMap_cons]
      rw [h1, h2, List.map_cons, ht]

lemma nanmean_fins (l : List PyF) (h : ∀ x ∈ l, x = .nan ∨ ∃ q, x = .fin q)
    (hne : finitesQ l ≠ []) :
    nanmean l = .fin ((finitesQ l).sum / (finitesQ l).length) := by
  rw [nanmean, nonNan_eq_finites l h, pySum_fin, List.length_map]
  have hlen : ((finitesQ l).length : ℚ) ≠ 0 := by
    simp only [ne_eq, Nat.cast_eq_zero, List.length_eq_zero]
    exact hne
  rw [PyF.div_fin, if_neg hlen]

lemma nanvar1_fins (l : List PyF) (h : ∀ x ∈ l, x = .nan ∨ ∃ q, x = .fin q)
    (hlen : 2 ≤ (finitesQ l).length) :
    nanvar1 l = .fin (((finitesQ l).map
      (fun x => (x - (finitesQ l).sum / (finitesQ l).length) ^ 2)).sum /
      ((finitesQ l).length - 1)) := by
  have hne : finitesQ l ≠ [] := by
    intro hc
    rw [hc] at hlen
    simp at hlen
  rw [nanvar1]
  simp only [nonNan_eq_finites l h, List.length_map]
  rw [if_neg (by omega)]
  rw [nanmean_fins l h hne]
  have hmap : ((finitesQ l).map PyF.fin).map
      (fun x => PyF.mul (PyF.sub x (.fin ((finitesQ l).sum / (finitesQ l).length)))
        (PyF.sub x (.fin ((finitesQ l).sum / (finitesQ l).length)))) =
      ((finitesQ l).map
        (fun x => (x - (finitesQ l).sum / (finitesQ l).length) ^ 2)).map PyF.fin := by
    rw [List.map_map, List.map_map]
    apply List.map_congr_left
    intro q hq
    simp only [Function.comp_apply]
    rw [PyF.sub_fin, PyF.mul_fin]
    congr 1
    ring
  rw [hmap, foldl_add_fin _ 0]
  have hd : (((finitesQ l).length : ℚ) - 1) ≠ 0 := by
    intro hc
    rw [sub_eq_zero] at hc
    have h1 : (finitesQ l).length = 1 := by exact_mod_cast hc
    omega
  rw [PyF.div_fin, if_neg hd, zero_add]

/-- Claim C5: `compute_stats_from_list` returns the arithmetic mean,
minimum and maximum of the non-NaN entries and the Bessel-corrected
(divisor `N-1`) sample variance, whose square root is the reported
`std`; on `[1,2,3,4,5]` it returns `mean 3, min 1, max 5` and
`std = sqrt (5/2) = 1.5811...`. -/
theorem compute_stats_from_list_semantics :
    (∀ l : List PyF, (∀ x ∈ l, x = .nan ∨ ∃ q, x = .fin q) → finitesQ l ≠ [] →
      ∃ s, compute_stats_from_list l = .ok s ∧
        s.mean = .fin ((finitesQ l).sum / (finitesQ l).length) ∧
        s.min = .fin (specMinQ (finitesQ l)) ∧
        s.max = .fin (specMaxQ (finitesQ l)) ∧
        (2 ≤ (finitesQ l).length →
          s.var = .fin (((finitesQ l).map
            (fun x => (x - (finitesQ l).sum / (finitesQ l).length) ^ 2)).sum /
            ((finitesQ l).length - 1)))) ∧
    compute_stats_from_list ([1, 2, 3, 4, 5].map PyF.fin) =
      .ok ⟨.fin 3, .fin 1, .fin 5, .fin (5 / 2)⟩ ∧
    (1.5811 : ℝ) < Real.sqrt (5 / 2) ∧ Real.sqrt (5 / 2) < 1.5812 := by
  refine ⟨?_, by with_unfolding_all rfl, ?_, ?_⟩
  · intro l h hne
    have hlne : l ≠ [] := by
      intro hc
      rw [hc] at hne
      exact hne rfl
    refine ⟨⟨nanmean l, nanminP l, nanmaxP l, nanvar1 l⟩, ?_, ?_, ?_, ?_, ?_⟩
    · rw [compute_stats_from_list, if_neg (by simpa [List.isEmpty_iff] using hlne)]
    · exact nanmean_fins l h hne
    · show nanminP l = _
      rw [nanminP, nonNan_eq_finites l h]
      exact foldl_min2_start (finitesQ l) hne
    · show nanmaxP l = _
      rw [nanmaxP, nonNan_eq_finites l h]
      exact foldl_max2_start (finitesQ l) hne
    · exact nanvar1_fins l h
  · rw [show (1.5811 : ℝ) = Real.sqrt (1.5811 ^ 2) by rw [Real.sqrt_sq (by norm_num)]]
    apply Real.sqrt_lt_sqrt (by norm_num)
    norm_num
  · rw [show (1.5812 : ℝ) = Real.sqrt (1.5812 ^ 2) by rw [Real.sqrt_sq (by norm_num)]]
    apply Real.sqrt_lt_sqrt (by norm_num)
    norm_num

/-- Witness for C5's general part at `l = [fin 1, nan, fin 2]`. -/
theorem compute_stats_from_list_semantics_witness :
    ∃ s, compute_stats_from_list [.fin 1, .nan, .fin 2] = .ok s ∧
      s.mean = .fin ((finitesQ [.fin 1, .nan, .fin 2]).sum /
        (finitesQ [.fin 1, .nan, .fin 2]).length) ∧
      s.min = .fin (specMinQ (finitesQ [.fin 1, .nan, .fin 2])) ∧
      s.max = .fin (specMaxQ (finitesQ [.fin 1, .nan, .fin 2])) ∧
      (2 ≤ (finitesQ [.fin 1, .nan, .fin 2]).length →
        s.var = .fin (((finitesQ [.fin 1, .nan, .fin 2]).map
          (fun x => (x - (finitesQ [.fin 1, .nan, .fin 2]).sum /
            (finitesQ [.fin 1, .nan, .fin 2]).length) ^ 2)).sum /
          ((finitesQ [.fin 1, .nan, .fin 2]).length - 1))) :=
  compute_stats_from_list_semantics.1 [.fin 1, .nan, .fin 2]
    (by
      intro x hx
      fin_cases hx
      · exact Or.inr ⟨1, rfl⟩
      · exact Or.inl rfl
      · exact Or.inr ⟨2, rfl⟩)
    (by decide)

/- ----------------------------------------------------------------
   Max drawdown (claim C6)
   ---------------------------------------------------------------- -/

lemma getD_mem_of_lt {c : List ℚ} {i : ℕ} (h : i < c.length) : c.getD i 0 ∈ c := by
  induction c generalizing i with
  | nil => simp at h
  | cons q t ih =>
    cases i with
    | zero => exact List.mem_cons_self _ _
    | succ j => exact List.mem_cons_of_mem _ (ih (by simpa using h))

lemma getD_eq_get {c : List ℚ} {i : ℕ} (h : i < c.length) : c.getD i 0 = c.get ⟨i, h⟩ := by
  induction c generalizing i with
  | nil => simp at h
  | cons q t ih =>
    cases i with
    | zero => rfl
    | succ j => exact ih (by simpa using h)

lemma peakAt_pos (c : List ℚ) (hpos : ∀ q ∈ c, 0 < q) :
    ∀ i, i < c.length → 0 < peakAt c i := by
  intro i
  induction i with
  | zero => exact fun h => hpos _ (getD_mem_of_lt h)
  | succ j ih =>
    intro h
    rw [peakAt]
    exact lt_max_of_lt_right (hpos _ (getD_mem_of_lt h))

lemma peakAt_ge (c : List ℚ) (i : ℕ) : c.getD i 0 ≤ peakAt c i := by
  cases i with
  | zero => exact le_refl _
  | succ j => exact le_max_right _ _

lemma specMaxQ_append_singleton (t : List ℚ) (x : ℚ) (hne : t ≠ []) :
    specMaxQ (t ++ [x]) = max (specMaxQ t) x := by
  cases t with
  | nil => exact absurd rfl hne
  | cons q u =>
    rw [specMaxQ, specMaxQ]
    have h1 : ((q :: u) ++ [x]).getD 0 0 = q := rfl
    have h2 : (q :: u).getD 0 0 = q := rfl
    rw [h1, h2, List.foldl_append]
    simp

lemma peakAt_eq_spec (c : List ℚ) : ∀ i, i < c.length → peakAt c i = specPeak c i := by
  intro i
  induction i with
  | zero =>
    intro h
    cases c with
    | nil => simp at h
    | cons q t =>
      show q = specMaxQ ((q :: t).take 1)
      rw [show (q :: t).take 1 = [q] from rfl, specMaxQ]
      simp
  | succ j ih =>
    intro h
    have hj : j < c.length := by omega
    have htake : c.take (j + 1 + 1) = c.take (j + 1) ++ [c.get ⟨j + 1, h⟩] := by
      rw [← List.take_concat_get c (j + 1) h]
      simp
    rw [peakAt, ih hj, specPeak, specPeak, htake,
      specMaxQ_append_singleton _ _ (by
        intro hc
        have := congrArg List.length hc
        simp only [List.length_take, List.length_nil] at this
        omega)]
    rw [getD_eq_get h]

lemma drawdowns_eq (c : List ℚ) (hpos : ∀ q ∈ c, 0 < q) :
    (List.range c.length).map (drawdownAt c) = (specDrawdowns c).map PyF.fin := by
  rw [specDrawdowns, List.map_map]
  apply List.map_congr_left
  intro i hi
  rw [List.mem_range] at hi
  have hp := peakAt_pos c hpos i hi
  simp only [Function.comp_apply]
  rw [drawdownAt, PyF.div_fin, if_neg hp.ne.symm, PyF.sub_fin, peakAt_eq_spec c i hi]

lemma foldl_min_all_zero (t : List ℚ) (h : ∀ x ∈ t, x = 0) : t.foldl min 0 = 0 := by
  induction t with
  | nil => rfl
  | cons q u ih =>
    have hq : q = 0 := h q (List.mem_cons_self _ _)
    rw [List.foldl_cons, hq, min_self]
    exact ih (fun x hx => h x (List.mem_cons_of_mem _ hx))

lemma specMinQ_all_zero (l : List ℚ) (h : ∀ x ∈ l, x = 0) : specMinQ l = 0 := by
  cases l with
  | nil => rfl
  | cons q t =>
    have hq : q = 0 := h q (List.mem_cons_self _ _)
    rw [specMinQ, show (q :: t).getD 0 0 = q from rfl, List.foldl_cons, hq, min_self]
    exact foldl_min_all_zero t (fun x hx => h x (List.mem_cons_of_mem _ hx))

/-- Claim C6: for a non-empty positive close series,
`calculate_max_drawdown` equals the minimum over `t` of
`Close[t]/peak[t] - 1` with `peak[t]` the running maximum from the
start; it is 0 when the price never falls below its running peak; and
on `[100, 120, 90, 110]` it returns `-0.25`. -/
theorem calculate_max_drawdown_spec (c : List ℚ) (hne : c ≠ [])
    (hpos : ∀ q ∈ c, 0 < q) :
    calculate_max_drawdown c = .fin (specMinQ (specDrawdowns c)) ∧
    ((∀ i, i < c.length → peakAt c i ≤ c.getD i 0) → calculate_max_drawdown c = .fin 0) ∧
    calculate_max_drawdown [100, 120, 90, 110] = .fin (-(1 / 4)) := by
  have hmain : calculate_max_drawdown c = .fin (specMinQ (specDrawdowns c)) := by
    rw [calculate_max_drawdown, drawdowns_eq c hpos]
    apply nanminP_fins
    intro hcon
    have := congrArg List.length hcon
    simp only [specDrawdowns, List.length_map, List.length_range, List.length_nil] at this
    exact hne (List.length_eq_zero.mp this)
  refine ⟨hmain, ?_, by with_unfolding_all rfl⟩
  intro hflat
  rw [hmain]
  congr 1
  apply specMinQ_all_zero
  intro x hx
  rw [specDrawdowns, List.mem_map] at hx
  obtain ⟨i, hi, rfl⟩ := hx
  rw [List.mem_range] at hi
  have heq : specPeak c i = c.getD i 0 :=
    le_antisymm (by rw [← peakAt_eq_spec c i hi]; exact hflat i hi)
      (by rw [← peakAt_eq_spec c i hi]; exact peakAt_ge c i)
  rw [heq, div_self (hpos _ (getD_mem_of_lt hi)).ne.symm, sub_self]

/-- Witness for C6 at `c = [100, 120, 90, 110]`. -/
theorem calculate_max_drawdown_spec_witness :
    calculate_max_drawdown [100, 120, 90, 110] =
      .fin (specMinQ (specDrawdowns [100, 120, 90, 110])) ∧
    ((∀ i, i < ([100, 120, 90, 110] : List ℚ).length →
        peakAt [100, 120, 90, 110] i ≤ ([100, 120, 90, 110] : List ℚ).getD i 0) →
      calculate_max_drawdown [100, 120, 90, 110] = .fin 0) ∧
    calculate_max_drawdown [100, 120, 90, 110] = .fin (-(1 / 4)) :=
  calculate_max_drawdown_spec [100, 120, 90, 110] (by simp) (by norm_num)

/- ----------------------------------------------------------------
   map_reduce_stats result keys and error behavior (claims C2, C4)
   ---------------------------------------------------------------- -/

lemma foldl_append_acc (l : List (List ℚ)) : ∀ (a : List ℚ),
    l.foldl (fun x y => x ++ y) a = a ++ l.flatten := by
  induction l with
  | nil => intro a; simp
  | cons h t ih =>
    intro a
    rw [List.foldl_cons, ih, List.flatten_cons, List.append_assoc]

lemma reduce_concat_chunkify (c : List ℚ) (w : ℕ) (hw : 1 ≤ w) :
    reduce_concat ((chunkify c w).map map_close) = c := by
  have hid : (chunkify c w).map map_close = chunkify c w := List.map_id _
  rw [reduce_concat, hid, foldl_append_acc, List.nil_append, chunkify_flatten c w hw]

lemma map_fst_keyPair {β : Type} (f : String → β) (l : List String) :
    l.map (Prod.fst ∘ fun k => (k, f k)) = l := by
  have h : (Prod.fst ∘ fun k : String => (k, f k)) = id := rfl
  rw [h, List.map_id]

/-- Claim C2 (amended): on a series with at least one non-null close,
the result dictionary's keys are exactly the requested metrics in
source insertion order, except that requesting `moving_average` yields
the key `"ma_" ++ toString moving_average_days` (e.g. `ma_10`), not
`"moving_average"`. -/
theorem map_reduce_stats_keys (col : List (Option ℚ)) (metrics : List String) (d w : ℕ)
    (hw : 1 ≤ w) (hne : col.filterMap id ≠ []) :
    ∃ res, map_reduce_stats (some col) (some metrics) d w = .ok res ∧
      keysOf res =
        (["mean", "min", "max", "std"].filter (fun k => metrics.contains k)) ++
        (if metrics.contains "returns" then ["returns"] else []) ++
        (if metrics.contains "volatility" then ["volatility"] else []) ++
        (if metrics.contains "cumulative_return" then ["cumulative_return"] else []) ++
        (if metrics.contains "max_drawdown" then ["max_drawdown"] else []) ++
        (if metrics.contains "moving_average" then ["ma_" ++ toString d] else []) := by
  have hall := reduce_concat_chunkify (col.filterMap id) w hw
  simp only [map_reduce_stats, Option.getD_some]
  rw [hall, compute_stats_from_list,
    if_neg (by simp [List.isEmpty_iff, hne])]
  refine ⟨_, rfl, ?_⟩
  by_cases hret : "returns" ∈ metrics <;>
    by_cases hvol : "volatility" ∈ metrics <;>
      by_cases hcum : "cumulative_return" ∈ metrics <;>
        simp [keysOf, List.map_append, List.map_map, hret, hvol, hcum,
          map_fst_keyPair, apply_ite (List.map Prod.fst)]

/-- Witness for C2 (amended) at a concrete column and metric set. -/
theorem map_reduce_stats_keys_witness :
    ∃ res, map_reduce_stats (some [some 1, some 2]) (some ["mean", "moving_average"]) 10 2 =
      .ok res ∧
      keysOf res =
        (["mean", "min", "max", "std"].filter
          (fun k => (["mean", "moving_average"] : List String).contains k)) ++
        (if (["mean", "moving_average"] : List String).contains "returns" then ["returns"]
          else []) ++
        (if (["mean", "moving_average"] : List String).contains "volatility" then ["volatility"]
          else []) ++
        (if (["mean", "moving_average"] : List String).contains "cumulative_return" then
          ["cumulative_return"] else []) ++
        (if (["mean", "moving_average"] : List String).contains "max_drawdown" then
          ["max_drawdown"] else []) ++
        (if (["mean", "moving_average"] : List String).contains "moving_average" then
          ["ma_" ++ toString 10] else []) :=
  map_reduce_stats_keys [some 1, some 2] ["mean", "moving_average"] 10 2 (by decide) (by decide)

/-- Counterexample to C2 as stated: requesting `moving_average` does
not populate a key named `moving_average`; the key is `ma_10`. -/
theorem map_reduce_stats_moving_average_key_counterexample :
    map_reduce_stats (some [some 1, some 2, some 3]) (some ["moving_average"]) 10 2 =
      .ok [("ma_10", Val.series [.nan, .nan, .nan])] ∧
    "moving_average" ∈ (["moving_average"] : List String) ∧
    ("moving_average" : String) ∉ keysOf [("ma_10", Val.series [.nan, .nan, .nan])] := by
  refine ⟨by with_unfolding_all rfl, by decide, by decide⟩

lemma chunkify_nil {α : Type} (w : ℕ) : chunkify ([] : List α) w = [] := by
  rw [chunkify_eq_filter_map, List.filter_eq_nil_iff]
  intro c hc
  rw [List.mem_map] at hc
  obtain ⟨i, -, rfl⟩ := hc
  simp

/-- Claim C4 (amended): `map_reduce_stats` fails on a frame without a
`Close` column (`KeyError`) and on a series that is empty after
`dropna` (`ValueError` from `np.nanmin` of a zero-size array); but
null `Close` entries are silently dropped, with all metrics computed
over the remaining rows: the result equals the result on the
null-free column. -/
theorem map_reduce_stats_error_behavior (metricsOpt : Option (List String)) (d w : ℕ)
    (col : List (Option ℚ)) :
    map_reduce_stats none metricsOpt d w = .error "KeyError" ∧
    (col.filterMap id = [] → map_reduce_stats (some col) metricsOpt d w = .error "ValueError") ∧
    map_reduce_stats (some col) metricsOpt d w =
      map_reduce_stats (some ((col.filterMap id).map some)) metricsOpt d w := by
  refine ⟨by rw [map_reduce_stats], ?_, ?_⟩
  · intro hempty
    simp only [map_reduce_stats]
    rw [hempty, chunkify_nil]
    rfl
  · have h : ((col.filterMap id).map some).filterMap id = col.filterMap id := by
      rw [List.filterMap_map]
      simp
    simp only [map_reduce_stats]
    rw [h]

/-- Witness for C4 (amended) at concrete inputs. -/
theorem map_reduce_stats_error_behavior_witness :
    map_reduce_stats none (some ["mean"]) 10 2 = .error "KeyError" ∧
    map_reduce_stats (some [none, none]) (some ["mean"]) 10 2 = .error "ValueError" ∧
    map_reduce_stats (some [some 1, none, some 2]) (some ["mean"]) 10 2 =
      map_reduce_stats
        (some ((([some 1, none, some 2] : List (Option ℚ)).filterMap id).map some))
        (some ["mean"]) 10 2 :=
  ⟨(map_reduce_stats_error_behavior (some ["mean"]) 10 2 [none, none]).1,
   (map_reduce_stats_error_behavior (some ["mean"]) 10 2 [none, none]).2.1 (by decide),
   (map_reduce_stats_error_behavior (some ["mean"]) 10 2 [some 1, none, some 2]).2.2⟩

/-- Counterexample to C4 as stated: a `Close` column containing a null
entry does not make the engine fail; the null is dropped and the mean
is computed over the remaining rows. -/
theorem map_reduce_stats_null_close_counterexample :
    map_reduce_stats (some [some 1, none, some 2]) (some ["mean"]) 10 2 =
      .ok [("mean", Val.num (.fin (3 / 2)))] ∧
    ∀ e : String, map_reduce_stats (some [some 1, none, some 2]) (some ["mean"]) 10 2 ≠
      .error e := by
  have h : map_reduce_stats (some [some 1, none, some 2]) (some ["mean"]) 10 2 =
      .ok [("mean", Val.num (.fin (3 / 2)))] := by with_unfolding_all rfl
  exact ⟨h, fun e hc => by rw [h] at hc; exact Except.noConfusion hc⟩

/- ----------------------------------------------------------------
   Performance score (claim C9)
   ---------------------------------------------------------------- -/

lemma floor_le_rhe (q : ℚ) : ⌊q⌋ ≤ rhe q := by
  simp only [rhe]
  split_ifs <;> omega

lemma rhe_le_floor_add_one (q : ℚ) : rhe q ≤ ⌊q⌋ + 1 := by
  simp only [rhe]
  split_ifs <;> omega

lemma rhe_mono {x y : ℚ} (h : x ≤ y) : rhe x ≤ rhe y := by
  rcases lt_or_ge ⌊x⌋ ⌊y⌋ with hf | hf
  · calc rhe x ≤ ⌊x⌋ + 1 := rhe_le_floor_add_one x
    _ ≤ ⌊y⌋ := by omega
    _ ≤ rhe y := floor_le_rhe y
  · have hf2 : ⌊x⌋ = ⌊y⌋ := le_antisymm (Int.floor_le_floor h) hf
    simp only [rhe, hf2]
    split_ifs <;> first | omega | linarith

lemma rhe_nonneg (q : ℚ) (h : 0 ≤ q) : 0 ≤ rhe q :=
  le_trans (Int.floor_nonneg.mpr h) (floor_le_rhe q)

lemma rhe_le_hundred (q : ℚ) (h : q ≤ 100) : rhe q ≤ 100 := by
  rcases lt_or_ge ⌊q⌋ 100 with hf | hf
  · have := rhe_le_floor_add_one q
    omega
  · have h100 : ⌊q⌋ = 100 := by
      have h1 : ((⌊q⌋ : ℤ) : ℚ) ≤ 100 := le_trans (Int.floor_le q) h
      have h2 : (⌊q⌋ : ℤ) ≤ 100 := by exact_mod_cast h1
      omega
    simp only [rhe, h100]
    rw [if_pos (by push_cast; linarith)]

lemma round1_mono {x y : ℚ} (h : x ≤ y) : round1 x ≤ round1 y := by
  have h1 : rhe (x * 10) ≤ rhe (y * 10) := rhe_mono (by linarith)
  have h2 : ((rhe (x * 10) : ℤ) : ℚ) ≤ ((rhe (y * 10) : ℤ) : ℚ) := by exact_mod_cast h1
  rw [round1, round1]
  linarith

lemma round1_nonneg {x : ℚ} (h : 0 ≤ x) : 0 ≤ round1 x := by
  have h1 : (0 : ℤ) ≤ rhe (x * 10) := rhe_nonneg _ (by linarith)
  have h2 : ((0 : ℤ) : ℚ) ≤ ((rhe (x * 10) : ℤ) : ℚ) := by exact_mod_cast h1
  rw [round1]
  simp only [Int.cast_zero] at h2
  linarith

lemma round1_le_ten {x : ℚ} (h : x ≤ 10) : round1 x ≤ 10 := by
  have h1 : rhe (x * 10) ≤ 100 := rhe_le_hundred _ (by linarith)
  have h2 : ((rhe (x * 10) : ℤ) : ℚ) ≤ ((100 : ℤ) : ℚ) := by exact_mod_cast h1
  rw [round1]
  push_cast at h2
  linarith

/-- Claim C9 (amended): `calcular_score_performance` is non-decreasing
in the cumulative return and non-increasing in the volatility, and its
result is always ≥ 0; the upper bound 10 holds whenever the volatility
is non-negative (a negative volatility makes the penalty negative and
pushes the score above 10, since the penalty has no lower clamp). -/
theorem calcular_score_performance_props (r r2 v v2 : ℚ) :
    (r ≤ r2 → calcular_score_performance r v ≤ calcular_score_performance r2 v) ∧
    (v ≤ v2 → calcular_score_performance r v2 ≤ calcular_score_performance r v) ∧
    0 ≤ calcular_score_performance r v ∧
    (0 ≤ v → calcular_score_performance r v ≤ 10) := by
  refine ⟨?_, ?_, ?_, ?_⟩
  · intro hr
    simp only [calcular_score_performance]
    apply round1_mono
    apply max_le_max _ (le_refl 0)
    apply sub_le_sub_right
    apply min_le_min _ (le_refl 10)
    apply max_le_max _ (le_refl 0)
    linarith
  · intro hv
    simp only [calcular_score_performance]
    apply round1_mono
    apply max_le_max _ (le_refl 0)
    apply sub_le_sub_left
    apply min_le_min _ (le_refl 5)
    linarith
  · simp only [calcular_score_performance]
    exact round1_nonneg (le_max_right _ _)
  · intro hv
    simp only [calcular_score_performance]
    apply round1_le_ten
    apply max_le _ (by norm_num)
    have hsr : min (max ((r * 100 + 50) / 10) 0) 10 ≤ 10 := min_le_right _ _
    have hpen : (0 : ℚ) ≤ min (v * 100 / 20) 5 := le_min (by linarith) (by norm_num)
    linarith

/-- Witness for C9 (amended) at concrete inputs. -/
theorem calcular_score_performance_props_witness :
    (calcular_score_performance 0 0 ≤ calcular_score_performance (1 / 10) 0) ∧
    (calcular_score_performance 0 1 ≤ calcular_score_performance 0 0) ∧
    0 ≤ calcular_score_performance 0 0 ∧
    calcular_score_performance 0 0 ≤ 10 :=
  ⟨(calcular_score_performance_props 0 (1 / 10) 0 1).1 (by norm_num),
   (calcular_score_performance_props 0 (1 / 10) 0 1).2.1 (by norm_num),
   (calcular_score_performance_props 0 (1 / 10) 0 1).2.2.1,
   (calcular_score_performance_props 0 (1 / 10) 0 1).2.2.2 (by norm_num)⟩

/-- Counterexample to C9 as stated: with a negative volatility the
score exceeds 10 (the penalty `min(v*100/20, 5)` has no lower clamp),
so the result does not always lie in `[0, 10]`. -/
theorem calcular_score_performance_above_ten_counterexample :
    calcular_score_performance (1 / 2) (-1) = 15 ∧ ¬((15 : ℚ) ≤ 10) := by
  constructor
  · with_unfolding_all rfl
  · norm_num

/- ----------------------------------------------------------------
   RSI (claims C7 and C10)
   ---------------------------------------------------------------- -/

lemma getD_eq_get_general {α : Type} {c : List α} {d : α} {i : ℕ} (h : i < c.length) :
    c.getD i d = c.get ⟨i, h⟩ := by
  induction c generalizing i with
  | nil => simp at h
  | cons q t ih =>
    cases i with
    | zero => rfl
    | succ j => exact ih (by simpa using h)

lemma getD_range_map {β : Type} (f : ℕ → β) (d : β) {n t : ℕ} (ht : t < n) :
    ((List.range n).map f).getD t d = f t := by
  have hlen : t < ((List.range n).map f).length := by simpa using ht
  rw [getD_eq_get_general hlen]
  simp

lemma delta_zero (c : List ℚ) : delta c 0 = .nan := rfl

lemma delta_succ (c : List ℚ) {i : ℕ} (h : i ≠ 0) :
    delta c i = .fin (c.getD i 0 - c.getD (i - 1) 0) := by
  rw [delta, if_neg h]

lemma gt0_fin_true {q : ℚ} (h : 0 < q) : (PyF.fin q).gt0 = true := by
  simp [PyF.gt0, h]

lemma gt0_fin_false {q : ℚ} (h : q ≤ 0) : (PyF.fin q).gt0 = false := by
  simp [PyF.gt0]
  linarith

lemma lt0_fin_true {q : ℚ} (h : q < 0) : (PyF.fin q).lt0 = true := by
  simp [PyF.lt0, h]

lemma lt0_fin_false {q : ℚ} (h : 0 ≤ q) : (PyF.fin q).lt0 = false := by
  simp [PyF.lt0]
  linarith

lemma neg_fin_zero : PyF.neg (.fin 0) = .fin 0 := by
  rw [show PyF.neg (.fin 0) = .fin (-0) from rfl]
  norm_num

lemma ganhoRaw_fin_nonneg (c : List ℚ) : ∀ i, ∃ q, ganhoRaw c i = .fin q ∧ 0 ≤ q := by
  intro i
  rcases Nat.eq_zero_or_pos i with rfl | hpos
  · exact ⟨0, rfl, le_refl 0⟩
  · rcases lt_or_ge 0 (c.getD i 0 - c.getD (i - 1) 0) with hd | hd
    · refine ⟨c.getD i 0 - c.getD (i - 1) 0, ?_, le_of_lt hd⟩
      rw [ganhoRaw, delta_succ c (by omega), gt0_fin_true hd, if_pos rfl]
    · refine ⟨0, ?_, le_refl 0⟩
      rw [ganhoRaw, delta_succ c (by omega), gt0_fin_false (by linarith)]
      simp
  
lemma perdaRaw_fin_nonneg (c : List ℚ) : ∀ i, ∃ q, perdaRaw c i = .fin q ∧ 0 ≤ q := by
  intro i
  rcases Nat.eq_zero_or_pos i with rfl | hpos
  · refine ⟨0, ?_, le_refl 0⟩
    rw [perdaRaw, delta_zero]
    show PyF.neg (.fin 0) = .fin 0
    exact neg_fin_zero
  · rcases lt_or_ge (c.getD i 0 - c.getD (i - 1) 0) 0 with hd | hd
    · refine ⟨-(c.getD i 0 - c.getD (i - 1) 0), ?_, by linarith⟩
      rw [perdaRaw, delta_succ c (by omega), lt0_fin_true hd, if_pos rfl]
      rfl
    · refine ⟨0, ?_, le_refl 0⟩
      rw [perdaRaw, delta_succ c (by omega), lt0_fin_false (by linarith)]
      simp [neg_fin_zero]

lemma perdaRaw_eq_zero (c : List ℚ)
    (hinc : ∀ i, i + 1 < c.length → c.getD i 0 < c.getD (i + 1) 0)
    (i : ℕ) (hilen : i < c.length) : perdaRaw c i = .fin 0 := by
  rcases Nat.eq_zero_or_pos i with rfl | hpos
  · rw [perdaRaw, delta_zero]
    show PyF.neg (.fin 0) = .fin 0
    exact neg_fin_zero
  · have hd := hinc (i - 1) (by omega)
    rw [show i - 1 + 1 = i from by omega] at hd
    rw [perdaRaw, delta_succ c (by omega), lt0_fin_false (by linarith)]
    simp [neg_fin_zero]

lemma ganhoRaw_eq_delta (c : List ℚ)
    (hinc : ∀ i, i + 1 < c.length → c.getD i 0 < c.getD (i + 1) 0)
    (i : ℕ) (hpos : 1 ≤ i) (hilen : i < c.length) :
    ganhoRaw c i = .fin (c.getD i 0 - c.getD (i - 1) 0) ∧
      0 < c.getD i 0 - c.getD (i - 1) 0 := by
  have hd := hinc (i - 1) (by omega)
  rw [show i - 1 + 1 = i from by omega] at hd
  have hdpos : 0 < c.getD i 0 - c.getD (i - 1) 0 := by linarith
  constructor
  · rw [ganhoRaw, delta_succ c (by omega), gt0_fin_true hdpos, if_pos rfl]
  · exact hdpos

lemma perda_zero_window (c : List ℚ)
    (hinc : ∀ i, i + 1 < c.length → c.getD i 0 < c.getD (i + 1) 0)
    (t : ℕ) (h13 : 13 ≤ t) (htlen : t < c.length) : perda c 14 t = .fin 0 := by
  rw [perda, rollMean, if_neg (by omega)]
  have hwin : (List.range 14).map (fun j => perdaRaw c (t + 1 - 14 + j)) =
      (List.replicate 14 (0 : ℚ)).map PyF.fin := by
    rw [List.map_replicate]
    rw [List.eq_replicate_iff]
    refine ⟨by simp, ?_⟩
    intro b hb
    obtain ⟨j, hj, rfl⟩ := List.mem_map.mp hb
    rw [List.mem_range] at hj
    exact perdaRaw_eq_zero c hinc _ (by omega)
  rw [hwin, foldl_add_fin, show (List.replicate 14 (0 : ℚ)).sum = 0 by simp,
    PyF.div_fin, if_neg (by norm_num)]
  norm_num

lemma ganho_pos_window (c : List ℚ)
    (hinc : ∀ i, i + 1 < c.length → c.getD i 0 < c.getD (i + 1) 0)
    (t : ℕ) (h13 : 13 ≤ t) (htlen : t < c.length) :
    ∃ g, ganho c 14 t = .fin g ∧ 0 < g := by
  rw [ganho, rollMean, if_neg (by omega)]
  choose g hgf hgnn using ganhoRaw_fin_nonneg c
  have hwin : (List.range 14).map (fun j => ganhoRaw c (t + 1 - 14 + j)) =
      ((List.range 14).map (fun j => g (t + 1 - 14 + j))).map PyF.fin := by
    rw [List.map_map]
    apply List.map_congr_left
    intro j hj
    simp only [Function.comp_apply]
    exact hgf _
  rw [hwin, foldl_add_fin]
  have hS : 0 < ((List.range 14).map (fun j => g (t + 1 - 14 + j))).sum := by
    rw [show (14 : ℕ) = 13 + 1 from rfl, List.range_succ, List.map_append, List.sum_append]
    have h1 : 0 ≤ ((List.range 13).map (fun j => g (t + 1 - (13 + 1) + j))).sum := by
      apply List.sum_nonneg
      intro x hx
      obtain ⟨j, -, rfl⟩ := List.mem_map.mp hx
      exact hgnn _
    have h2 : 0 < g (t + 1 - (13 + 1) + 13) := by
      rw [show t + 1 - (13 + 1) + 13 = t from by omega]
      obtain ⟨hgt, hdpos⟩ := ganhoRaw_eq_delta c hinc t (by omega) htlen
      have hfin : PyF.fin (c.getD t 0 - c.getD (t - 1) 0) = PyF.fin (g t) :=
        hgt.symm.trans (hgf t)
      have heq : c.getD t 0 - c.getD (t - 1) 0 = g t := PyF.fin.inj hfin
      linarith
    simp only [List.map_cons, List.map_nil, List.sum_cons, List.sum_nil]
    linarith
  refine ⟨(0 + ((List.range 14).map (fun j => g (t + 1 - 14 + j))).sum) / 14, ?_, ?_⟩
  · rw [PyF.div_fin, if_neg (by norm_num)]
    norm_num
  · rw [zero_add]
    positivity

lemma rollMean_fin_nonneg (f : ℕ → PyF) (h : ∀ i, ∃ q, f i = .fin q ∧ 0 ≤ q)
    (t : ℕ) (ht : 13 ≤ t) : ∃ s, rollMean 14 f t = .fin s ∧ 0 ≤ s := by
  rw [rollMean, if_neg (by omega)]
  choose g hgf hgnn using h
  have hwin : (List.range 14).map (fun j => f (t + 1 - 14 + j)) =
      ((List.range 14).map (fun j => g (t + 1 - 14 + j))).map PyF.fin := by
    rw [List.map_map]
    apply List.map_congr_left
    intro j hj
    simp only [Function.comp_apply]
    exact hgf _
  rw [hwin, foldl_add_fin, PyF.div_fin, if_neg (by norm_num)]
  refine ⟨(0 + ((List.range 14).map (fun j => g (t + 1 - 14 + j))).sum) / 14, by norm_num, ?_⟩
  have hs : 0 ≤ ((List.range 14).map (fun j => g (t + 1 - 14 + j))).sum := by
    apply List.sum_nonneg
    intro x hx
    obtain ⟨j, -, rfl⟩ := List.mem_map.mp hx
    exact hgnn _
  positivity

/-- Claim C7: for a strictly increasing close series longer than the
14-day period, the RSI is 100 at every index from the end of the
warm-up window on (the rolling average loss is 0 while the rolling
average gain is positive); and whenever both rolling averages are 0,
the 0/0 case is preserved and the RSI is the NaN sentinel. -/
theorem calcular_rsi_strictly_increasing (c : List ℚ) (_hlen : 14 < c.length)
    (hinc : ∀ i, i + 1 < c.length → c.getD i 0 < c.getD (i + 1) 0) :
    (∀ t, 13 ≤ t → t < c.length → (calcular_rsi c 14).getD t .nan = .fin 100) ∧
    (∀ (c2 : List ℚ) (t : ℕ), ganho c2 14 t = .fin 0 → perda c2 14 t = .fin 0 →
      (calcular_rsi c2 14).getD t .nan = .nan) := by
  constructor
  · intro t h13 htlen
    rw [calcular_rsi, getD_range_map _ _ htlen]
    obtain ⟨g, hg, hgpos⟩ := ganho_pos_window c hinc t h13 htlen
    rw [rsiAt, rsAt, hg, perda_zero_window c hinc t h13 htlen]
    rw [PyF.div_fin, if_pos rfl, if_pos hgpos]
    rw [show PyF.add (.fin 1) .inf = .inf from rfl,
      show PyF.div (.fin 100) .inf = .fin 0 from rfl, PyF.sub_fin]
    norm_num
  · intro c2 t hg hp
    by_cases ht : t < c2.length
    · rw [calcular_rsi, getD_range_map _ _ ht, rsiAt, rsAt, hg, hp]
      rw [PyF.div_fin, if_pos rfl, if_neg (by norm_num), if_neg (by norm_num)]
      rfl
    · rw [calcular_rsi, List.getD_eq_default _ _ (by simp; omega)]

/-- Witness for C7 at the strictly increasing series `[1, ..., 16]`
(first conjunct) and the constant 0/0 series (second conjunct). -/
theorem calcular_rsi_strictly_increasing_witness :
    (calcular_rsi [1, 2, 3, 4, 5, 6, 7, 8, 9, 10, 11, 12, 13, 14, 15, 16] 14).getD 13 .nan =
      .fin 100 ∧
    (calcular_rsi (List.replicate 14 (1 : ℚ)) 14).getD 13 .nan = .nan :=
  ⟨(calcular_rsi_strictly_increasing [1, 2, 3, 4, 5, 6, 7, 8, 9, 10, 11, 12, 13, 14, 15, 16]
      (by decide)
      (by
        intro i hi
        simp only [List.length_cons, List.length_nil] at hi
        have hub : i < 15 := by omega
        interval_cases i <;> decide)).1 13 (by norm_num) (by decide),
   (calcular_rsi_strictly_increasing [1, 2, 3, 4, 5, 6, 7, 8, 9, 10, 11, 12, 13, 14, 15, 16]
      (by decide)
      (by
        intro i hi
        simp only [List.length_cons, List.length_nil] at hi
        have hub : i < 15 := by omega
        interval_cases i <;> decide)).2 (List.replicate 14 1) 13
      (by with_unfolding_all rfl) (by with_unfolding_all rfl)⟩

/-- Claim C10 (amended): the undefined first diff is coerced to 0 gain
and 0 loss by the `where` masking; RSI is NaN at every index before
`period - 1 = 13`; and at index 13 the RSI is non-NaN provided the
rolling average gain and loss there are not both zero (for an
all-equal warm-up window both are zero and RSI stays NaN, so the first
non-NaN value need not exist). -/
theorem calcular_rsi_warmup (c : List ℚ) (hlen : 14 ≤ c.length) :
    ganhoRaw c 0 = .fin 0 ∧ perdaRaw c 0 = .fin 0 ∧
    (∀ t, t < 13 → (calcular_rsi c 14).getD t .nan = .nan) ∧
    (¬(ganho c 14 13 = .fin 0 ∧ perda c 14 13 = .fin 0) →
      (calcular_rsi c 14).getD 13 .nan ≠ .nan) := by
  refine ⟨rfl, ?_, ?_, ?_⟩
  · rw [perdaRaw, delta_zero]
    show PyF.neg (.fin 0) = .fin 0
    exact neg_fin_zero
  · intro t hkt
    rw [calcular_rsi, getD_range_map _ _ (by omega)]
    rw [rsiAt, rsAt, ganho, perda, rollMean, if_pos (by omega), rollMean, if_pos (by omega)]
    rfl
  · intro hnot
    rw [calcular_rsi, getD_range_map _ _ (by omega)]
    obtain ⟨ga, hga, hgann⟩ :=
      rollMean_fin_nonneg (ganhoRaw c) (ganhoRaw_fin_nonneg c) 13 (le_refl 13)
    obtain ⟨pa, hpa, hpann⟩ :=
      rollMean_fin_nonneg (perdaRaw c) (perdaRaw_fin_nonneg c) 13 (le_refl 13)
    have hg2 : ganho c 14 13 = .fin ga := hga
    have hp2 : perda c 14 13 = .fin pa := hpa
    by_cases hpz : pa = 0
    · have hgnz : ga ≠ 0 := by
        intro h0
        exact hnot ⟨by rw [hg2, h0], by rw [hp2, hpz]⟩
      have hgpos : 0 < ga := lt_of_le_of_ne hgann (Ne.symm hgnz)
      rw [rsiAt, rsAt, hg2, hp2, hpz, PyF.div_fin, if_pos rfl, if_pos hgpos]
      rw [show PyF.add (.fin 1) .inf = .inf from rfl,
        show PyF.div (.fin 100) .inf = .fin 0 from rfl, PyF.sub_fin]
      simp
    · rw [rsiAt, rsAt, hg2, hp2, PyF.div_fin, if_neg hpz, PyF.add_fin]
      have hpos : (0 : ℚ) < 1 + ga / pa := by
        have : 0 ≤ ga / pa := div_nonneg hgann hpann
        linarith
      rw [PyF.div_fin, if_neg (by linarith), PyF.sub_fin]
      simp

/-- Witness for C10 (amended) at `c = [1, ..., 14]`. -/
theorem calcular_rsi_warmup_witness :
    ganhoRaw [1, 2, 3, 4, 5, 6, 7, 8, 9, 10, 11, 12, 13, 14] 0 = .fin 0 ∧
    (calcular_rsi [1, 2, 3, 4, 5, 6, 7, 8, 9, 10, 11, 12, 13, 14] 14).getD 5 .nan = .nan ∧
    (calcular_rsi [1, 2, 3, 4, 5, 6, 7, 8, 9, 10, 11, 12, 13, 14] 14).getD 13 .nan ≠ .nan :=
  ⟨(calcular_rsi_warmup [1, 2, 3, 4, 5, 6, 7, 8, 9, 10, 11, 12, 13, 14] (by decide)).1,
   (calcular_rsi_warmup [1, 2, 3, 4, 5, 6, 7, 8, 9, 10, 11, 12, 13, 14] (by decide)).2.2.1 5
     (by norm_num),
   (calcular_rsi_warmup [1, 2, 3, 4, 5, 6, 7, 8, 9, 10, 11, 12, 13, 14] (by decide)).2.2.2
     (by
       intro hcon
       have h := hcon.1
       rw [show ganho [1, 2, 3, 4, 5, 6, 7, 8, 9, 10, 11, 12, 13, 14] 14 13 = .fin (13 / 14)
         from by with_unfolding_all rfl] at h
       have h2 := PyF.fin.inj h
       norm_num at h2)⟩

/-- Counterexample to C10 as stated: on a constant series of length 14
the RSI is NaN at every index, so no first non-NaN value appears at
index `period - 1 = 13`. -/
theorem calcular_rsi_constant_counterexample :
    14 ≤ (List.replicate 14 (1 : ℚ)).length ∧
    (calcular_rsi (List.replicate 14 (1 : ℚ)) 14).getD 13 .nan = .nan ∧
    (∀ t, t < 14 → (calcular_rsi (List.replicate 14 (1 : ℚ)) 14).getD t .nan = .nan) := by
  refine ⟨by decide, by with_unfolding_all rfl, ?_⟩
  intro t ht
  interval_cases t <;> with_unfolding_all rfl

/- ----------------------------------------------------------------
   MACD (claim C8)
   ---------------------------------------------------------------- -/

lemma ewmAt_nonpos (a : ℚ) (ha0 : 0 ≤ a) (ha1 : a ≤ 1) (x : ℕ → ℚ) :
    ∀ n, (∀ t, t ≤ n → x t ≤ 0) → ewmAt a x n ≤ 0 := by
  intro n
  induction n with
  | zero => exact fun h => h 0 (le_refl 0)
  | succ j ih =>
    intro h
    rw [ewmAt]
    have h1 : (1 - a) * ewmAt a x j ≤ 0 :=
      mul_nonpos_iff.mpr (Or.inl ⟨by linarith, ih (fun t ht => h t (by omega))⟩)
    have h2 : a * x (j + 1) ≤ 0 :=
      mul_nonpos_iff.mpr (Or.inl ⟨ha0, h (j + 1) (le_refl _)⟩)
    linarith

/-- Claim C8 (amended): if the fast EMA is at or below the slow EMA at
every index before `k` and strictly above it at `k`, then the MACD
histogram is strictly positive at the crossover index `k` (before `k`
it may take either sign, see the counterexample). -/
theorem calcular_macd_crossover (c : List ℚ) (k : ℕ)
    (hbefore : ∀ t, t < k → emaAt 12 c t ≤ emaAt 26 c t)
    (hcross : emaAt 26 c k < emaAt 12 c k) :
    0 < histogramaAt c 12 26 9 k ∧
    (k < c.length → (calcular_macd c 12 26 9).2.2.getD k 0 = histogramaAt c 12 26 9 k) := by
  constructor
  · cases k with
    | zero =>
      exfalso
      have h0 : emaAt 12 c 0 = emaAt 26 c 0 := rfl
      rw [h0] at hcross
      exact lt_irrefl _ hcross
    | succ j =>
      have hmneg : ∀ t, t ≤ j → macdAt c 12 26 t ≤ 0 := by
        intro t ht
        rw [macdAt]
        have := hbefore t (by omega)
        linarith
      have hsj : ewmAt (2 / ((9 : ℕ) + 1 : ℚ)) (macdAt c 12 26) j ≤ 0 := by
        apply ewmAt_nonpos _ (by norm_num) (by norm_num)
        exact hmneg
      have hmk : 0 < macdAt c 12 26 (j + 1) := by
        rw [macdAt]
        linarith
      rw [histogramaAt, linhaSinalAt, ewmAt]
      have ha : (2 / ((9 : ℕ) + 1 : ℚ)) = 1 / 5 := by norm_num
      rw [ha] at hsj ⊢
      linarith
  · intro hk
    rw [calcular_macd]
    exact getD_range_map _ _ hk

/-- Witness for C8 (amended) at `c = [100, 110]`, crossover at `k = 1`. -/
theorem calcular_macd_crossover_witness :
    0 < histogramaAt [100, 110] 12 26 9 1 ∧
    (1 < ([100, 110] : List ℚ).length →
      (calcular_macd [100, 110] 12 26 9).2.2.getD 1 0 = histogramaAt [100, 110] 12 26 9 1) :=
  calcular_macd_crossover [100, 110] 1
    (by
      intro t ht
      have h0 : t = 0 := by omega
      subst h0
      exact le_refl _)
    (by with_unfolding_all decide)

/-- Counterexample to C8 as stated: for the closes
`[100, 50, 90, 95, 100, 105, 110, 115]` the fast EMA first overtakes
the slow EMA at `k = 7`, yet before `k` the histogram already takes
both signs (negative at `t = 1`, positive at `t = 5`), so it is not of
one sign before the crossover. -/
theorem calcular_macd_crossover_counterexample :
    (∀ t, t < 7 →
      emaAt 12 [100, 50, 90, 95, 100, 105, 110, 115] t ≤
        emaAt 26 [100, 50, 90, 95, 100, 105, 110, 115] t) ∧
    emaAt 26 [100, 50, 90, 95, 100, 105, 110, 115] 7 <
      emaAt 12 [100, 50, 90, 95, 100, 105, 110, 115] 7 ∧
    histogramaAt [100, 50, 90, 95, 100, 105, 110, 115] 12 26 9 1 < 0 ∧
    0 < histogramaAt [100, 50, 90, 95, 100, 105, 110, 115] 12 26 9 5 := by
  refine ⟨?_, ?_, ?_, ?_⟩
  · intro t ht
    interval_cases t <;> with_unfolding_all decide
  · with_unfolding_all decide
  · with_unfolding_all decide
  · with_unfolding_all decide
